import Mathlib

/- Verification development for the xlog-images tool (src/main.ts):
   path-identity derivation (generatePublicId), the uploaded/destroyed
   archive ledger and its mutating operations (pushUploaded,
   deleteCloudAsset, refreshArchive), the date-directory skeleton
   generator (extractDateComponents, genDateDirs), and an interleaving
   model of the concurrent batch upload. -/

namespace XlogImages

/-! ### Character-list string primitives

JS `String.prototype.replace` with a string pattern replaces only the FIRST
occurrence; Node `path.extname` returns the suffix of the basename starting
at its last dot (empty for dotfiles such as `.gitkeep`). These are modelled
on `List Char`. -/

/-- `startsWithL s p` : does `s` start with `p`? -/
def startsWithL : List Char → List Char → Bool
  | _, [] => true
  | [], _ :: _ => false
  | a :: s, b :: p => a == b && startsWithL s p

/-- `containsL s p` : does `p` occur as a contiguous chunk of `s`? -/
def containsL : List Char → List Char → Bool
  | [], p => startsWithL [] p
  | c :: rest, p => startsWithL (c :: rest) p || containsL rest p

/-- Number of positions of `s` (including the final empty suffix) at which
`p` starts; used to state that an extension occurs exactly once. -/
def countOcc : List Char → List Char → Nat
  | [], p => if startsWithL [] p then 1 else 0
  | c :: rest, p => (if startsWithL (c :: rest) p then 1 else 0) + countOcc rest p

/-- Worker for `replaceFirstL` (pattern known non-empty): removes the first
occurrence of `p` and keeps everything else. -/
def replaceFirstGo (p : List Char) : List Char → List Char
  | [] => []
  | c :: rest =>
    if startsWithL (c :: rest) p then List.drop p.length (c :: rest)
    else c :: replaceFirstGo p rest

/-- JS `s.replace(p, '')` for a string pattern `p`: removes the first
occurrence of `p` from `s`; `s` is unchanged when `p` is empty (the empty
match is replaced by the empty string) or does not occur. -/
def replaceFirstL (s p : List Char) : List Char :=
  if p = [] then s else replaceFirstGo p s

/-- Split on a separator character (used for `/` and basenames). -/
def splitOnCharAux (sep : Char) : List Char → List Char → List (List Char)
  | [], acc => [acc.reverse]
  | c :: rest, acc =>
    if c = sep then acc.reverse :: splitOnCharAux sep rest []
    else splitOnCharAux sep rest (c :: acc)

def splitOnChar (s : List Char) (sep : Char) : List (List Char) :=
  splitOnCharAux sep s []

/-- `endsWithL s p` : does `s` end with `p`? -/
def endsWithL (s p : List Char) : Bool :=
  startsWithL s.reverse p.reverse

/-- Node `path.basename` for the well-formed file paths this tool handles:
the component after the last `/`. -/
def basenameL (s : List Char) : List Char :=
  (splitOnChar s '/').getLastD []

/-- The part of the list after the last occurrence of `c`, if any. -/
def afterLastChar (c : Char) : List Char → Option (List Char)
  | [] => none
  | x :: xs =>
    match afterLastChar c xs with
    | some r => some r
    | none => if x = c then some xs else none

/-- Node `path.extname`: the suffix of the basename from its last dot;
empty when the basename has no dot past its first character (so dotfiles
like `.gitkeep` have no extension). -/
def extnameL (p : List Char) : List Char :=
  match basenameL p with
  | [] => []
  | _ :: rest =>
    match afterLastChar '.' rest with
    | some r => '.' :: r
    | none => []

/-! ### PathIdentity (main.ts 242-246)

`generatePublicId` strips the first occurrence of `uploadDir + "/"` and then
the first occurrence of the extension of the remainder, via JS
first-occurrence `replace`. -/

def generatePublicIdL (uploadDir filePath : List Char) : List Char :=
  let relativePath := replaceFirstL filePath (uploadDir ++ ['/'])
  replaceFirstL relativePath (extnameL relativePath)

def generatePublicId (uploadDir filePath : String) : String :=
  (generatePublicIdL uploadDir.data filePath.data).asString

def basenameStr (p : String) : String :=
  (basenameL p.data).asString

/-! ### Archive data model (main.ts 9-19)

`CloudImageInfo` carries the opaque gateway response in `result`; it is
modelled as a string since the tool never inspects it. `UploadedArchive` is
the persisted ledger `./uploaded.json`. -/

structure CloudImageInfo where
  publicId : String
  url : String
  originalFilename : String
  result : String
  deriving DecidableEq, Repr

structure UploadedArchive where
  uploaded : List CloudImageInfo
  destroyed : List CloudImageInfo
  deriving DecidableEq, Repr

/-- `getImageInfo` (main.ts 111-114): lookup by identity within `uploaded`
only. -/
def getImageInfo (st : UploadedArchive) (publicId : String) : Option CloudImageInfo :=
  st.uploaded.find? (fun image => image.publicId == publicId)

/-- `pushUploaded` (main.ts 116-121): loads the archive, appends the record
to `uploaded` with no duplicate check of any kind, and writes the whole
archive back. The argument is the loaded archive and the value is the
archive as written. -/
def pushUploaded (st : UploadedArchive) (imageInfo : CloudImageInfo) : UploadedArchive :=
  { st with uploaded := st.uploaded ++ [imageInfo] }

/-- `getCloudAssets` (main.ts 359-382): the remote listing mapped to
`CloudImageInfo`, dropping entries whose identity contains the reserved
`samples/` namespace. The raw listing is a parameter. -/
def getCloudAssets (remote : List CloudImageInfo) : List CloudImageInfo :=
  remote.filter (fun imageInfo => !(containsL imageInfo.publicId.data "samples/".data))

/-- `publicIdExists` (main.ts 82-91): membership of an identity in the
filtered remote listing. -/
def publicIdExists (remote : List CloudImageInfo) (publicId : String) : Bool :=
  (getCloudAssets remote).any (fun image => image.publicId == publicId)

/-- The remote asset gateway as seen by `uploadImage`: the primary
content type of a file, and the `secure_url` and opaque payload of the
upload response for a requested identity. -/
structure Gateway where
  fileTypeOf : String → String
  secureUrlOf : String → String
  uploadResultOf : String → String

/-- The record `uploadImage` builds from a successful upload response
(main.ts 151-156). -/
def mkUploadedInfo (gw : Gateway) (uploadDir imagePath : String) : CloudImageInfo :=
  { publicId := generatePublicId uploadDir imagePath
    url := gw.secureUrlOf (generatePublicId uploadDir imagePath)
    originalFilename := basenameStr imagePath
    result := gw.uploadResultOf (generatePublicId uploadDir imagePath) }

/-- `uploadImage` (main.ts 123-163): skip non-images, derive the identity,
skip identities already present in the remote listing, otherwise upload and
append the new record via `pushUploaded`. Returns the persisted archive and
the record for a performed upload (`none` for both skip cases). -/
def uploadImage (gw : Gateway) (remote : List CloudImageInfo) (uploadDir : String)
    (st : UploadedArchive) (imagePath : String) : UploadedArchive × Option CloudImageInfo :=
  if gw.fileTypeOf imagePath ≠ "image" then (st, none)
  else if publicIdExists remote (generatePublicId uploadDir imagePath) then (st, none)
  else (pushUploaded st (mkUploadedInfo gw uploadDir imagePath), some (mkUploadedInfo gw uploadDir imagePath))

/-- Result of one `deleteCloudAsset` call: the persisted archive afterwards,
the archive writes performed inside the call (in order), and the value the
call returned (`none` when an error was caught). -/
structure DeleteOutcome where
  persisted : UploadedArchive
  writes : List UploadedArchive
  destroyResult : Option String
  deriving DecidableEq, Repr

/-- `deleteCloudAsset` (main.ts 340-357): remote destroy, then move the
record from `uploaded` to `destroyed` and write the archive immediately.
`destroyOk` is whether the remote destroy call returned rather than threw;
a throw, or a missing record, is caught and leaves the archive untouched. -/
def deleteCloudAsset (destroyOk : Bool) (st : UploadedArchive) (publicId : String) : DeleteOutcome :=
  if !destroyOk then ⟨st, [], none⟩
  else
    match getImageInfo st publicId with
    | none => ⟨st, [], none⟩
    | some imageInfo =>
      let next : UploadedArchive :=
        { uploaded := st.uploaded.filter (fun image => image.publicId != publicId)
          destroyed := st.destroyed ++ [imageInfo] }
      ⟨next, [next], some "ok"⟩

/-- The `--delete` branch of main (main.ts 432-441): the identity list is
taken from the archive loaded once before the loop; each iteration calls
`deleteCloudAsset` on the current persisted archive. Returns the final
archive and every archive write performed, in order. -/
def deleteAll (destroyOk : String → Bool) (st : UploadedArchive) : UploadedArchive × List UploadedArchive :=
  let ids := st.uploaded.map (fun image => image.publicId)
  ids.foldl
    (fun acc publicId =>
      let out := deleteCloudAsset (destroyOk publicId) acc.1 publicId
      (out.persisted, acc.2 ++ out.writes))
    (st, [])

/-! ### Refresh (main.ts 384-406) -/

/-- The prune performed by `refreshArchive` (main.ts 391-394): keep a
`destroyed` entry exactly when some `uploaded` entry has the same
identity. -/
def refreshPrune (st : UploadedArchive) : UploadedArchive :=
  { uploaded := st.uploaded
    destroyed := st.destroyed.filter (fun image =>
      st.uploaded.any (fun uploadedImage => uploadedImage.publicId == image.publicId)) }

/-- Modelled from the spec: the refresh prune rule of spec section 4.3,
"an entry is removed from `destroyed` only if no entry with the same
identity currently exists in `uploaded`" — after refresh `destroyed` holds
exactly the prior entries whose identity is absent from `uploaded`. Stated
here only to compare against `refreshPrune`, the rule in the source. -/
def refreshPruneSpec (st : UploadedArchive) : UploadedArchive :=
  { uploaded := st.uploaded
    destroyed := st.destroyed.filter (fun image =>
      !(st.uploaded.any (fun uploadedImage => uploadedImage.publicId == image.publicId))) }

/-- `Bun.write` to a path: create the file or silently overwrite the
existing content (model of the backup directory as an association list). -/
def setFile : List (String × UploadedArchive) → String → UploadedArchive → List (String × UploadedArchive)
  | [], p, v => [(p, v)]
  | e :: rest, p, v => if e.1 == p then (p, v) :: rest else e :: setFile rest p v

def lookupFile (fs : List (String × UploadedArchive)) (p : String) : Option UploadedArchive :=
  match fs.find? (fun e => e.1 == p) with
  | some e => some e.2
  | none => none

structure RefreshOutcome where
  backups : List (String × UploadedArchive)
  persisted : UploadedArchive
  deriving DecidableEq, Repr

/-- `refreshArchive` (main.ts 384-406): write a backup of the current
archive to `backupDir/<dateString>.json` via `Bun.write`, then persist the
pruned archive. -/
def refreshArchive (backups : List (String × UploadedArchive)) (dateString : String)
    (st : UploadedArchive) : RefreshOutcome :=
  ⟨setFile backups (dateString ++ ".json") st, refreshPrune st⟩

/-- The archive invariant of spec section 3: an identity appears in at most
one of the two partitions. -/
def DisjointIds (st : UploadedArchive) : Prop :=
  ∀ i ∈ st.uploaded, ∀ j ∈ st.destroyed, i.publicId ≠ j.publicId

instance (st : UploadedArchive) : Decidable (DisjointIds st) := by
  unfold DisjointIds; infer_instance

/-! ### Interleaving model of the `--all` batch (main.ts 412-421)

The batch maps `uploadImage` over the file list without awaiting in the map,
so the per-file tasks run concurrently. For an upload that is performed,
the archive side of a task is `pushUploaded`: an awaited read of
`uploaded.json` (the snapshot) followed by an awaited whole-file write of
the snapshot plus the new record. A task is two atomic steps against the
shared persisted file: `load` (program counter 0 to 1) and `write`
(1 to 2); a schedule is the sequence of task choices. -/

structure BatchState where
  persisted : UploadedArchive
  snap1 : Option UploadedArchive
  snap2 : Option UploadedArchive
  pc1 : Nat
  pc2 : Nat
  deriving DecidableEq, Repr

/-- One step of a single upload task appending record `r`: at pc 0 it loads
the persisted archive into its snapshot, at pc 1 it writes its snapshot
with `r` appended (`pushUploaded`) over the persisted archive. Returns the
new persisted archive, snapshot and pc. -/
def taskStep (r : CloudImageInfo) (persisted : UploadedArchive)
    (snap : Option UploadedArchive) (pc : Nat) : UploadedArchive × Option UploadedArchive × Nat :=
  if pc = 0 then (persisted, some persisted, 1)
  else if pc = 1 then
    match snap with
    | some s => (pushUploaded s r, snap, 2)
    | none => (persisted, snap, 2)
  else (persisted, snap, pc)

/-- Run one scheduled step: `false` steps the task uploading `r1`, `true`
the task uploading `r2`. -/
def batchStep (r1 r2 : CloudImageInfo) (s : BatchState) (who : Bool) : BatchState :=
  if who then
    let out := taskStep r2 s.persisted s.snap2 s.pc2
    { s with persisted := out.1, snap2 := out.2.1, pc2 := out.2.2 }
  else
    let out := taskStep r1 s.persisted s.snap1 s.pc1
    { s with persisted := out.1, snap1 := out.2.1, pc1 := out.2.2 }

/-- Run a two-task batch under a schedule, starting from persisted archive
`st` with both tasks at their first step. -/
def runBatch (r1 r2 : CloudImageInfo) (sched : List Bool) (st : UploadedArchive) : BatchState :=
  sched.foldl (batchStep r1 r2) ⟨st, none, none, 0, 0⟩

/-! ### Date-skeleton generator (main.ts 165-218)

`extractDateComponents` searches each line for the JS regex
`date:\s*(\d{4})-(\d{2})-(\d{2})` and returns the captured strings of the
first match; `genDateDirs` lists the post directory, collects the dates of
`.mdx` files, sorts them numerically, creates the date directories and
`.gitkeep` placeholders, and catches every error into a returned string. -/

structure DateComponents where
  year : String
  month : String
  day : String
  deriving DecidableEq, Repr

def isDigitC (c : Char) : Bool := '0' ≤ c && c ≤ '9'

def isSpaceC (c : Char) : Bool := c = ' ' || c = '\t' || c = '\n' || c = '\r'

/-- Consume exactly `n` digits, returning them and the rest. -/
def takeDigits : Nat → List Char → Option (List Char × List Char)
  | 0, s => some ([], s)
  | _ + 1, [] => none
  | n + 1, c :: rest =>
    if isDigitC c then
      match takeDigits n rest with
      | some (ds, s) => some (c :: ds, s)
      | none => none
    else none

def dropSpaces : List Char → List Char
  | [] => []
  | c :: rest => if isSpaceC c then dropSpaces rest else c :: rest

/-- Match `date:` then `\s*` then `\d{4}-\d{2}-\d{2}` at the start of `s`
(the quantifiers are fixed or disjoint from what follows, so the regex
backtracks nothing). -/
def matchDateAt (s : List Char) : Option DateComponents :=
  if startsWithL s "date:".data then
    let s1 := dropSpaces (List.drop 5 s)
    match takeDigits 4 s1 with
    | none => none
    | some (y, s2) =>
      match s2 with
      | '-' :: s3 =>
        match takeDigits 2 s3 with
        | none => none
        | some (m, s4) =>
          match s4 with
          | '-' :: s5 =>
            match takeDigits 2 s5 with
            | none => none
            | some (d, _) => some ⟨y.asString, m.asString, d.asString⟩
          | _ => none
      | _ => none
  else none

/-- JS `String.match` with an unanchored regex: try every start position,
first match wins. -/
def findDateInLine : List Char → Option DateComponents
  | [] => none
  | c :: rest =>
    match matchDateAt (c :: rest) with
    | some d => some d
    | none => findDateInLine rest

/-- `extractDateComponents` (main.ts 165-177): the first line with a match
decides; the captured month and day keep their leading zeros. -/
def extractDateComponents : List String → Option DateComponents
  | [] => none
  | line :: rest =>
    match findDateInLine line.data with
    | some d => some d
    | none => extractDateComponents rest

/-- A thrown JS error as seen by a `catch` block: possibly without a
`message` field. -/
structure JsError where
  message : Option String
  deriving DecidableEq, Repr

/-- `(e as any).message ?? 'error'` (main.ts 216). -/
def errText (e : JsError) : String := e.message.getD "error"

structure DirEnt where
  name : String
  isFile : Bool
  deriving DecidableEq, Repr

/-- The created directories and files visible to `genDateDirs`. -/
structure FSState where
  dirs : List String
  files : List String
  deriving DecidableEq, Repr

/-- The filesystem as `genDateDirs` uses it, with injectable failures:
the post-directory listing, file contents, and per-path errors for
`fs.mkdir` and `fs.writeFile`. -/
structure FSOps where
  readdir : Except JsError (List DirEnt)
  readFile : String → Except JsError String
  mkdirErr : String → Option JsError
  writeErr : String → Option JsError

/-- The reading loop of `genDateDirs` (main.ts 184-193): for each `.mdx`
regular file, read it, split it into lines and keep its extracted date; the
first filesystem error aborts the loop. -/
def readDates (ops : FSOps) (directoryPath : String) : List DirEnt → Except JsError (List DateComponents)
  | [] => Except.ok []
  | f :: fs =>
    if f.isFile && endsWithL f.name.data ".mdx".data then
      match ops.readFile (directoryPath ++ "/" ++ f.name) with
      | Except.error e => Except.error e
      | Except.ok content =>
        match readDates ops directoryPath fs with
        | Except.error e => Except.error e
        | Except.ok rest =>
          match extractDateComponents ((splitOnChar content.data '\n').map List.asString) with
          | some d => Except.ok (d :: rest)
          | none => Except.ok rest
    else readDates ops directoryPath fs

/-- `parseInt` of the concatenated digit strings (main.ts 195-196). -/
def dateKey (d : DateComponents) : Nat :=
  (d.year ++ d.month ++ d.day).data.foldl (fun n c => n * 10 + (c.toNat - 48)) 0

/-- Stable ascending insertion by `dateKey` (ties keep earlier elements
first, as the JS stable sort does). -/
def insertSorted (d : DateComponents) : List DateComponents → List DateComponents
  | [] => [d]
  | x :: xs => if dateKey d < dateKey x then d :: x :: xs else x :: insertSorted d xs

def sortByDateKey (l : List DateComponents) : List DateComponents :=
  l.foldl (fun acc d => insertSorted d acc) []

/-- JS `Set` insertion: keeps insertion order, ignores duplicates. -/
def insertUnique (l : List String) (s : String) : List String :=
  if l.contains s then l else l ++ [s]

/-- The two `Set`s built at main.ts 199-206: the date directory paths
`uploadDir/year/month/day` (components exactly as captured) and their
`.gitkeep` paths. -/
def collectPaths (uploadDir : String) (ds : List DateComponents) : List String × List String :=
  ds.foldl
    (fun acc d =>
      let dateDirPath := uploadDir ++ "/" ++ d.year ++ "/" ++ d.month ++ "/" ++ d.day
      let gitkeepPath := dateDirPath ++ "/.gitkeep"
      (insertUnique acc.1 dateDirPath, insertUnique acc.2 gitkeepPath))
    ([], [])

/-- The `fs.mkdir(dir, recursive)` loop (main.ts 208-210): recursive mkdir
does not fail on an existing directory; an injected error aborts with the
state reached so far. -/
def mkdirAll (ops : FSOps) : List String → FSState → FSState × Option JsError
  | [], st => (st, none)
  | d :: ds, st =>
    match ops.mkdirErr d with
    | some e => (st, some e)
    | none => mkdirAll ops ds { st with dirs := insertUnique st.dirs d }

/-- The `fs.writeFile(gitkeep, '')` loop (main.ts 211-213): create or
truncate, so re-running changes nothing. -/
def writeAll (ops : FSOps) : List String → FSState → FSState × Option JsError
  | [], st => (st, none)
  | f :: fs, st =>
    match ops.writeErr f with
    | some e => (st, some e)
    | none => writeAll ops fs { st with files := insertUnique st.files f }

/-- The body of the `try` block of `genDateDirs` (main.ts 180-214). -/
def genDateDirsBody (ops : FSOps) (uploadDir directoryPath : String)
    (st : FSState) : FSState × Except JsError Unit :=
  match ops.readdir with
  | Except.error e => (st, Except.error e)
  | Except.ok files =>
    match readDates ops directoryPath files with
    | Except.error e => (st, Except.error e)
    | Except.ok dateList =>
      let paths := collectPaths uploadDir (sortByDateKey dateList)
      match mkdirAll ops paths.1 st with
      | (st1, some e) => (st1, Except.error e)
      | (st1, none) =>
        match writeAll ops paths.2 st1 with
        | (st2, some e) => (st2, Except.error e)
        | (st2, none) => (st2, Except.ok ())

/-- `genDateDirs` (main.ts 179-218): the whole body sits in a `try` whose
`catch` returns the error message text, so the caller always receives a
plain string. -/
def genDateDirs (ops : FSOps) (uploadDir directoryPath : String) (st : FSState) : FSState × String :=
  match genDateDirsBody ops uploadDir directoryPath st with
  | (st1, Except.ok _) => (st1, "complete")
  | (st1, Except.error e) => (st1, errText e)

/-! ### Concrete fixtures shared by the theorems -/

def catInfo : CloudImageInfo :=
  ⟨"2024/1/2/cat", "https://res.example/cat", "cat.jpg", "ok"⟩

def dogInfo : CloudImageInfo :=
  ⟨"2024/3/4/dog", "https://res.example/dog", "dog.jpg", "ok"⟩

/-- A gateway for which every local file is an image and upload responses
are deterministic. -/
def plainGateway : Gateway :=
  ⟨fun _ => "image", fun _ => "https://res.example/up", fun _ => "response"⟩

/-- The record `uploadImage` appends for `upload/2024/1/2/cat.jpg` against
`plainGateway`. -/
def catUploaded : CloudImageInfo :=
  ⟨"2024/1/2/cat", "https://res.example/up", "cat.jpg", "response"⟩

/-- A post corpus with one `.mdx` file dated `2024-05-06`, on a filesystem
with no failures. -/
def idealOps : FSOps :=
  { readdir := Except.ok [⟨"a.mdx", true⟩]
    readFile := fun _ => Except.ok "date: 2024-05-06"
    mkdirErr := fun _ => none
    writeErr := fun _ => none }

/-! ### Helper lemmas about the string primitives -/

theorem startsWithL_refl (s : List Char) : startsWithL s s = true := by
  induction s with
  | nil => rfl
  | cons a s ih => simp [startsWithL, ih]

theorem startsWithL_append_self (p t : List Char) : startsWithL (p ++ t) p = true := by
  induction p generalizing t with
  | nil => simp [startsWithL]
  | cons a p ih => simp [startsWithL, ih]

theorem startsWithL_append_of (s t p : List Char) (h : startsWithL s p = true) :
    startsWithL (s ++ t) p = true := by
  induction p generalizing s with
  | nil => simp [startsWithL]
  | cons b p ih =>
    cases s with
    | nil => simp [startsWithL] at h
    | cons a s =>
      simp only [startsWithL, Bool.and_eq_true, beq_iff_eq] at h
      simp only [List.cons_append, startsWithL, Bool.and_eq_true, beq_iff_eq]
      exact ⟨h.1, ih s h.2⟩

theorem containsL_nil_pat (s : List Char) : containsL s [] = true := by
  cases s <;> simp [containsL, startsWithL]

theorem containsL_append_right (s t x : List Char) (h : containsL s x = true) :
    containsL (s ++ t) x = true := by
  induction s with
  | nil =>
    cases x with
    | nil => simpa using containsL_nil_pat t
    | cons c xs => simp [containsL, startsWithL] at h
  | cons a s ih =>
    simp only [containsL, Bool.or_eq_true] at h
    simp only [List.cons_append, containsL, Bool.or_eq_true]
    cases h with
    | inl h1 =>
      have := startsWithL_append_of (a :: s) t x h1
      exact Or.inl (by simpa using this)
    | inr h2 => exact Or.inr (ih h2)

theorem replaceFirstGo_not_contains (p s : List Char) (h : containsL s p = false) :
    replaceFirstGo p s = s := by
  induction s with
  | nil => rfl
  | cons c rest ih =>
    simp only [containsL, Bool.or_eq_false_iff] at h
    simp [replaceFirstGo, h.1, ih h.2]

theorem replaceFirstL_not_contains (s p : List Char) (h : containsL s p = false) :
    replaceFirstL s p = s := by
  unfold replaceFirstL
  split
  · rfl
  · exact replaceFirstGo_not_contains p s h

theorem drop_length_append (p s : List Char) : List.drop p.length (p ++ s) = s := by
  induction p with
  | nil => rfl
  | cons a p ih => simp [ih]

theorem replaceFirstL_append_self (p s : List Char) (h : p ≠ []) :
    replaceFirstL (p ++ s) p = s := by
  unfold replaceFirstL
  rw [if_neg h]
  cases p with
  | nil => exact absurd rfl h
  | cons a p =>
    show replaceFirstGo (a :: p) ((a :: p) ++ s) = s
    have h1 : startsWithL ((a :: p) ++ s) (a :: p) = true := startsWithL_append_self _ _
    simp only [List.cons_append] at h1
    simp [replaceFirstGo, h1, drop_length_append]

theorem countOcc_suffix_pos (pre ext : List Char) (h : ext ≠ []) :
    1 ≤ countOcc (pre ++ ext) ext := by
  induction pre with
  | nil =>
    cases ext with
    | nil => exact absurd rfl h
    | cons c rest =>
      simp [countOcc, startsWithL_refl]
  | cons a pre ih =>
    simp only [List.cons_append, countOcc]
    exact le_trans ih (Nat.le_add_left _ _)

theorem countOcc_ge_two_of_contains (pre ext : List Char) (hne : ext ≠ [])
    (h : containsL pre ext = true) : 2 ≤ countOcc (pre ++ ext) ext := by
  induction pre with
  | nil =>
    cases ext with
    | nil => exact absurd rfl hne
    | cons c rest => simp [containsL, startsWithL] at h
  | cons a pre ih =>
    simp only [containsL, Bool.or_eq_true] at h
    simp only [List.cons_append, countOcc, List.append_eq]
    cases h with
    | inl h1 =>
      have h2 : startsWithL (a :: (pre ++ ext)) ext = true := by
        have := startsWithL_append_of (a :: pre) ext ext h1
        simpa using this
      have h3 := countOcc_suffix_pos pre ext hne
      simp only [h2, if_true]
      omega
    | inr h2 =>
      exact le_trans (ih h2) (Nat.le_add_left _ _)

theorem replaceFirstL_strip_unique_suffix (pre ext : List Char) (hne : ext ≠ [])
    (honce : countOcc (pre ++ ext) ext = 1) : replaceFirstL (pre ++ ext) ext = pre := by
  induction pre with
  | nil => simpa using replaceFirstL_append_self ext [] hne
  | cons a pre ih =>
    have hcnt : countOcc ((a :: pre) ++ ext) ext = 1 := honce
    simp only [List.cons_append, countOcc, List.append_eq] at hcnt
    cases hh : startsWithL (a :: (pre ++ ext)) ext with
    | true =>
      simp only [hh, if_true] at hcnt
      have hpos := countOcc_suffix_pos pre ext hne
      omega
    | false =>
      simp only [hh, Bool.false_eq_true, if_false, Nat.zero_add] at hcnt
      have hres := ih hcnt
      unfold replaceFirstL at hres ⊢
      rw [if_neg hne] at hres ⊢
      show replaceFirstGo ext ((a :: pre) ++ ext) = a :: pre
      simp only [List.cons_append, replaceFirstGo, List.append_eq, hh, Bool.false_eq_true,
        if_false]
      simp [hres]

theorem lookupFile_setFile (fs : List (String × UploadedArchive)) (p : String) (v : UploadedArchive) :
    lookupFile (setFile fs p v) p = some v := by
  induction fs with
  | nil => simp [setFile, lookupFile, List.find?]
  | cons e rest ih =>
    cases he : (e.1 == p) with
    | true => simp [setFile, he, lookupFile, List.find?]
    | false =>
      simp only [setFile, he, Bool.false_eq_true, if_false]
      simp only [lookupFile, List.find?, he] at ih ⊢
      exact ih

/-! ### Claim theorems -/

/-- C1: the refresh prune is inverted relative to the claimed safe rule.
The claim says that after refresh `destroyed` holds exactly the prior
entries whose identity does NOT occur in `uploaded`; `refreshArchive`
(main.ts 391-394) keeps exactly those whose identity DOES occur there.
Evaluating both the code (`refreshArchive`) and the spec rule
(`refreshPruneSpec`) at the failing inputs: an entry only in `destroyed`
is dropped by the code though the claim keeps it, and an entry present in
both partitions is kept by the code though the claim drops it. -/
theorem refreshArchive_prune_inverted :
    (refreshArchive [] "20240101" ⟨[], [catInfo]⟩).persisted = ⟨[], []⟩
    ∧ refreshPruneSpec ⟨[], [catInfo]⟩ = ⟨[], [catInfo]⟩
    ∧ (refreshArchive [] "20240101" ⟨[catInfo], [catInfo]⟩).persisted = ⟨[catInfo], [catInfo]⟩
    ∧ refreshPruneSpec ⟨[catInfo], [catInfo]⟩ = ⟨[catInfo], []⟩ := by decide

/-- C2: in the `--all` batch the per-file tasks run concurrently and each
append does its own read-modify-write of `uploaded.json`, so appends are
not serialized and can be lost. Under the schedule load1, load2, write1,
write2 both tasks complete (both uploads succeeded from the code's point
of view) yet the first record is absent from the final archive, whereas
the fully serialized schedule keeps both. -/
theorem batchUpload_lost_append :
    ((runBatch catInfo dogInfo [false, true, false, true] ⟨[], []⟩).pc1 = 2
      ∧ (runBatch catInfo dogInfo [false, true, false, true] ⟨[], []⟩).pc2 = 2)
    ∧ catInfo ∉ (runBatch catInfo dogInfo [false, true, false, true] ⟨[], []⟩).persisted.uploaded
    ∧ (runBatch catInfo dogInfo [false, true, false, true] ⟨[], []⟩).persisted = ⟨[dogInfo], []⟩
    ∧ (runBatch catInfo dogInfo [false, false, true, true] ⟨[], []⟩).persisted
        = ⟨[catInfo, dogInfo], []⟩ := by decide

/-- C3 counterexample: appending a record whose identity is already in
`uploaded` does not fail with anything — `pushUploaded` has no duplicate
check and produces two live entries for the same identity. -/
theorem pushUploaded_duplicate_not_rejected :
    pushUploaded ⟨[catInfo], []⟩ catInfo = ⟨[catInfo, catInfo], []⟩ := by decide

/-- C3 amended: deduplication lives in `uploadImage`, not in the append:
when a first upload of a path succeeded and produced record `r` (so the
remote listing now contains `r`), a second `uploadImage` of the same path
is a no-op that leaves the archive unchanged, provided the derived
identity is not in the reserved `samples/` namespace that the remote
listing filters away. -/
theorem uploadImage_second_attempt_noop
    (gw : Gateway) (remote : List CloudImageInfo) (uploadDir imagePath : String)
    (st st1 : UploadedArchive) (r : CloudImageInfo)
    (h1 : uploadImage gw remote uploadDir st imagePath = (st1, some r))
    (h2 : containsL (generatePublicId uploadDir imagePath).data "samples/".data = false) :
    uploadImage gw (r :: remote) uploadDir st1 imagePath = (st1, none) := by
  unfold uploadImage at h1 ⊢
  split at h1
  · simp at h1
  · split at h1
    · simp at h1
    · rename_i htype hex
      have hr : mkUploadedInfo gw uploadDir imagePath = r := by
        have := congrArg Prod.snd h1
        simpa using this
      rw [if_neg htype]
      have hexists : publicIdExists (r :: remote) (generatePublicId uploadDir imagePath) = true := by
        unfold publicIdExists getCloudAssets
        have hpid : r.publicId = generatePublicId uploadDir imagePath := by
          rw [← hr]; rfl
        simp [List.filter_cons, List.any_cons, hpid, h2]
      rw [if_pos hexists]

/-- C3 witness: a concrete first upload followed by the same upload against
the augmented remote listing: the second attempt returns the archive
unchanged. -/
theorem uploadImage_second_attempt_noop_witness :
    uploadImage plainGateway [] "upload" ⟨[], []⟩ "upload/2024/1/2/cat.jpg"
      = (⟨[catUploaded], []⟩, some catUploaded)
    ∧ containsL (generatePublicId "upload" "upload/2024/1/2/cat.jpg").data "samples/".data = false
    ∧ uploadImage plainGateway [catUploaded] "upload" ⟨[catUploaded], []⟩ "upload/2024/1/2/cat.jpg"
        = (⟨[catUploaded], []⟩, none) :=
  ⟨by decide, by decide,
    uploadImage_second_attempt_noop plainGateway [] "upload" "upload/2024/1/2/cat.jpg"
      ⟨[], []⟩ ⟨[catUploaded], []⟩ catUploaded (by decide) (by decide)⟩

/-- C4 counterexample: `pushUploaded` does not preserve the partition
invariant. Appending an identity that sits in `destroyed` (which the code
can do: the upload path checks only the remote listing, a re-upload after
destroy passes it) leaves the identity in both partitions. -/
theorem pushUploaded_breaks_partition_disjointness :
    DisjointIds ⟨[], [catInfo]⟩
    ∧ ¬ DisjointIds (pushUploaded ⟨[], [catInfo]⟩ catInfo) := by decide

/-- C4 amended: `deleteCloudAsset` and the refresh prune preserve the
invariant that an identity is in at most one partition, and `pushUploaded`
preserves it exactly under the guard the code lacks: the appended identity
must not already sit in `destroyed`. -/
theorem archive_mutations_preserve_disjointness (st : UploadedArchive) (destroyOk : Bool)
    (publicId : String) (r : CloudImageInfo) (h : DisjointIds st) :
    DisjointIds (deleteCloudAsset destroyOk st publicId).persisted
    ∧ DisjointIds (refreshPrune st)
    ∧ ((∀ j ∈ st.destroyed, r.publicId ≠ j.publicId) → DisjointIds (pushUploaded st r)) := by
  refine ⟨?_, ?_, ?_⟩
  · cases destroyOk with
    | false => simpa [deleteCloudAsset] using h
    | true =>
      simp only [deleteCloudAsset, Bool.not_true, Bool.false_eq_true, if_false]
      cases hfind : getImageInfo st publicId with
      | none => simpa [hfind] using h
      | some info =>
        simp only [hfind]
        intro i hi j hj
        simp only at hi hj
        have hi2 := List.mem_filter.mp hi
        rcases List.mem_append.mp hj with hj1 | hj2
        · exact h i hi2.1 j hj1
        · have hji : j = info := by simpa using hj2
          subst hji
          have hpid : j.publicId = publicId := by
            unfold getImageInfo at hfind
            have := List.find?_some hfind
            simpa using this
          have hne2 : (i.publicId != publicId) = true := hi2.2
          rw [bne_iff_ne] at hne2
          rw [hpid]
          exact hne2
  · intro i hi j hj
    simp only [refreshPrune] at hi hj
    exact h i hi j (List.mem_filter.mp hj).1
  · intro hguard i hi j hj
    simp only [pushUploaded] at hi hj
    rcases List.mem_append.mp hi with hi1 | hi2
    · exact h i hi1 j hj
    · have hir : i = r := by simpa using hi2
      subst hir
      exact hguard j hj

/-- C4 witness: the preservation theorem applied to a concrete disjoint
archive, a delete of the uploaded identity, a refresh, and an append whose
identity is absent from `destroyed`. -/
theorem archive_mutations_preserve_disjointness_witness :
    DisjointIds ⟨[catInfo], [dogInfo]⟩
    ∧ (DisjointIds (deleteCloudAsset true ⟨[catInfo], [dogInfo]⟩ "2024/1/2/cat").persisted
       ∧ DisjointIds (refreshPrune ⟨[catInfo], [dogInfo]⟩)
       ∧ ((∀ j ∈ (⟨[catInfo], [dogInfo]⟩ : UploadedArchive).destroyed, catInfo.publicId ≠ j.publicId)
          → DisjointIds (pushUploaded ⟨[catInfo], [dogInfo]⟩ catInfo))) :=
  ⟨by decide,
    archive_mutations_preserve_disjointness ⟨[catInfo], [dogInfo]⟩ true "2024/1/2/cat" catInfo
      (by decide)⟩

/-- C5: deleting `2024/1/2/cat` from the scenario archive moves the record
from `uploaded` to `destroyed`, and every successful move writes the full
archive inside the loop iteration (one write per move, each reflecting
exactly the moves so far), not a single batched write at the end. -/
theorem deleteAll_moves_and_persists_immediately :
    deleteAll (fun _ => true) ⟨[catInfo], []⟩ = (⟨[], [catInfo]⟩, [⟨[], [catInfo]⟩])
    ∧ deleteAll (fun _ => true) ⟨[catInfo, dogInfo], []⟩
        = (⟨[], [catInfo, dogInfo]⟩, [⟨[dogInfo], [catInfo]⟩, ⟨[], [catInfo, dogInfo]⟩]) := by
  decide

/-- C6 counterexample: for a file whose extension occurs twice in its name,
the first-occurrence `replace` removes the wrong occurrence and the derived
identity still contains the original extension. -/
theorem generatePublicId_keeps_repeated_extension :
    generatePublicId "/ws/upload" "/ws/upload/2024/1/2/a.jpg.jpg" = "2024/1/2/a.jpg"
    ∧ containsL "2024/1/2/a.jpg".data ".jpg".data = true := by decide

/-- C6 amended: `generatePublicId` is a pure function of its arguments, and
for a path under the upload root whose relative part ends with its
(non-empty) extension, contains that extension exactly once, and does not
contain the root-with-slash chunk, the derived identity is the relative
part minus the extension and contains neither the root chunk nor the
extension. -/
theorem generatePublicId_strips_root_and_unique_extension
    (u pre ext : List Char)
    (hext : extnameL (pre ++ ext) = ext)
    (hne : ext ≠ [])
    (honce : countOcc (pre ++ ext) ext = 1)
    (hroot : containsL (pre ++ ext) (u ++ ['/']) = false) :
    generatePublicIdL u (u ++ '/' :: (pre ++ ext)) = pre
    ∧ containsL pre ext = false
    ∧ containsL pre (u ++ ['/']) = false := by
  have hsplit : u ++ '/' :: (pre ++ ext) = (u ++ ['/']) ++ (pre ++ ext) := by simp
  have hrel : replaceFirstL ((u ++ ['/']) ++ (pre ++ ext)) (u ++ ['/']) = pre ++ ext :=
    replaceFirstL_append_self _ _ (by simp)
  refine ⟨?_, ?_, ?_⟩
  · unfold generatePublicIdL
    rw [hsplit, hrel]
    show replaceFirstL (pre ++ ext) (extnameL (pre ++ ext)) = pre
    rw [hext]
    exact replaceFirstL_strip_unique_suffix pre ext hne honce
  · cases hc : containsL pre ext with
    | false => rfl
    | true =>
      have h2 := countOcc_ge_two_of_contains pre ext hne hc
      exfalso
      omega
  · cases hc : containsL pre (u ++ ['/']) with
    | false => rfl
    | true =>
      have h2 := containsL_append_right pre ext _ hc
      rw [h2] at hroot
      exact hroot

/-- C6 witness: the amended theorem at the concrete path
`/ws/upload/2024/1/2/cat.jpg`. -/
theorem generatePublicId_strips_root_and_unique_extension_witness :
    extnameL ("2024/1/2/cat".data ++ ".jpg".data) = ".jpg".data
    ∧ ".jpg".data ≠ []
    ∧ countOcc ("2024/1/2/cat".data ++ ".jpg".data) ".jpg".data = 1
    ∧ containsL ("2024/1/2/cat".data ++ ".jpg".data) ("/ws/upload".data ++ ['/']) = false
    ∧ (generatePublicIdL "/ws/upload".data
          ("/ws/upload".data ++ '/' :: ("2024/1/2/cat".data ++ ".jpg".data)) = "2024/1/2/cat".data
       ∧ containsL "2024/1/2/cat".data ".jpg".data = false
       ∧ containsL "2024/1/2/cat".data ("/ws/upload".data ++ ['/']) = false) :=
  ⟨by decide, by decide, by decide, by decide,
    generatePublicId_strips_root_and_unique_extension "/ws/upload".data "2024/1/2/cat".data
      ".jpg".data (by decide) (by decide) (by decide) (by decide)⟩

/-- C7 counterexample: a path that is not under the upload root does not
fail — `generatePublicId` has no validation at all and happily returns an
identity for it (the path with its extension's first occurrence removed). -/
theorem generatePublicId_returns_identity_outside_root :
    generatePublicId "/ws/upload" "/etc/passwd.txt" = "/etc/passwd" := by decide

/-- C7 amended: identity derivation is total and performs no root check:
for any path that does not contain the root-with-slash chunk at all, the
root-stripping `replace` is the identity and the result is just the path
with the first occurrence of its extension removed. -/
theorem generatePublicId_total_outside_root (u p : List Char)
    (h : containsL p (u ++ ['/']) = false) :
    generatePublicIdL u p = replaceFirstL p (extnameL p) := by
  unfold generatePublicIdL
  rw [replaceFirstL_not_contains p _ h]

/-- C7 witness: the amended theorem at the concrete outside path
`/etc/passwd.txt`. -/
theorem generatePublicId_total_outside_root_witness :
    containsL "/etc/passwd.txt".data ("/ws/upload".data ++ ['/']) = false
    ∧ generatePublicIdL "/ws/upload".data "/etc/passwd.txt".data
        = replaceFirstL "/etc/passwd.txt".data (extnameL "/etc/passwd.txt".data) :=
  ⟨by decide, generatePublicId_total_outside_root "/ws/upload".data "/etc/passwd.txt".data
      (by decide)⟩

/-- C8 counterexample: for a post dated `2024-05-06` the generator creates
`upload/2024/05/06` — the regex captures keep their leading zeros — and
not the unpadded `upload/2024/5/6` the claim requires. -/
theorem genDateDirs_creates_padded_directory :
    (genDateDirs idealOps "upload" "posts" ⟨[], []⟩).1.dirs = ["upload/2024/05/06"]
    ∧ "upload/2024/5/6" ∉ (genDateDirs idealOps "upload" "posts" ⟨[], []⟩).1.dirs := by decide

/-- C8 amended: the generator creates the zero-padded directory
`upload/2024/05/06` with a `.gitkeep` placeholder inside it, reports
`complete`, and a second invocation on the resulting state reports
`complete` again and changes nothing. -/
theorem genDateDirs_padded_and_idempotent :
    genDateDirs idealOps "upload" "posts" ⟨[], []⟩
      = (⟨["upload/2024/05/06"], ["upload/2024/05/06/.gitkeep"]⟩, "complete")
    ∧ genDateDirs idealOps "upload" "posts" ⟨["upload/2024/05/06"], ["upload/2024/05/06/.gitkeep"]⟩
        = (⟨["upload/2024/05/06"], ["upload/2024/05/06/.gitkeep"]⟩, "complete") := by decide

/-- C9 counterexample: a backup under the same date label already exists,
and refresh silently overwrites it with the current archive instead of
failing. -/
theorem refresh_backup_overwrites_same_label :
    (refreshArchive [("20240101.json", ⟨[dogInfo], []⟩)] "20240101" ⟨[catInfo], []⟩).backups
      = [("20240101.json", (⟨[catInfo], []⟩ : UploadedArchive))] := by decide

/-- C9 amended: the refresh backup is last-writer-wins: whatever the prior
contents of the backup directory, after refresh the file named by the date
label holds the current archive — the write never fails and never spares
an existing backup. -/
theorem refresh_backup_last_writer_wins (backups : List (String × UploadedArchive))
    (dateString : String) (st : UploadedArchive) :
    lookupFile (refreshArchive backups dateString st).backups (dateString ++ ".json") = some st := by
  unfold refreshArchive
  exact lookupFile_setFile backups _ st

/-- C10: `genDateDirs` always hands its caller a plain string: `complete`
when the body ran without error, and otherwise exactly the message text of
the error the `catch` received (`error` when the thrown value carries no
message) — it never propagates the failure. -/
theorem genDateDirs_returns_complete_or_message (ops : FSOps)
    (uploadDir directoryPath : String) (st : FSState) :
    ((genDateDirsBody ops uploadDir directoryPath st).2 = Except.ok ()
      ∧ (genDateDirs ops uploadDir directoryPath st).2 = "complete")
    ∨ ∃ e : JsError, (genDateDirsBody ops uploadDir directoryPath st).2 = Except.error e
        ∧ (genDateDirs ops uploadDir directoryPath st).2 = errText e := by
  rcases hbody : genDateDirsBody ops uploadDir directoryPath st with ⟨st1, r⟩
  cases r with
  | ok u =>
    left
    cases u
    simp [genDateDirs, hbody]
  | error e =>
    right
    exact ⟨e, by simp [hbody], by simp [genDateDirs, hbody]⟩

end XlogImages
